import Mathlib

set_option maxHeartbeats 1000000
set_option maxRecDepth 8192

/-!
Verification of the record-to-triple mapper of the khaanpaan repository
(`src/generate_graph.py`).  The Python functions `create_uri_ref` and
`add_meal_to_graph` are embedded shallowly: the in-memory rdflib graph
becomes an explicitly passed triple store with set-insertion semantics,
Python dictionaries become association-list records, and the uncaught
`KeyError` on a missing `idMeal` key becomes an explicit error value.
-/

/-- An RDF node: either a URI reference or a literal (rdflib `URIRef` /
`Literal`). -/
inductive Node where
  | uri (value : String)
  | lit (value : String)
deriving DecidableEq

/-- A (subject, predicate, object) RDF statement. -/
abbrev Triple : Type := Node × Node × Node

/-- The predicate component of a triple. -/
def Triple.pred (t : Triple) : Node := t.2.1

/-- The in-memory triple store (`rdflib.Graph`), as the list of triples in
first-insertion order; `Store.add` gives it set semantics. -/
abbrev Store : Type := List Triple

/-- The freshly initialised empty graph (`g = Graph()`). -/
def Store.empty : Store := []

/-- `g.add(triple)` of rdflib: inserting an already present triple is a
no-op, a new triple is appended. -/
def Store.add (g : Store) (t : Triple) : Store :=
  if t ∈ g then g else g ++ [t]

/-- Insert a list of triples in order (the successive `g.add(...)` calls
performed by one run of `add_meal_to_graph`). -/
def Store.addAll (g : Store) (ts : List Triple) : Store :=
  ts.foldl Store.add g

/-- Namespace string of `RECIPE = Namespace("http://example.org/recipe/")`. -/
def RECIPE_base : String := "http://example.org/recipe/"

/-- Namespace string of `MEAL = Namespace("http://example.org/meal/")`. -/
def MEAL_base : String := "http://example.org/meal/"

/-- Namespace string of `INGREDIENT = Namespace("http://example.org/ingredient/")`. -/
def INGREDIENT_base : String := "http://example.org/ingredient/"

/-- Namespace string of `CATEGORY = Namespace("http://example.org/category/")`. -/
def CATEGORY_base : String := "http://example.org/category/"

/-- Namespace string of `CUISINE = Namespace("http://example.org/cuisine/")`. -/
def CUISINE_base : String := "http://example.org/cuisine/"

/-- `RECIPE[s]`: rdflib namespace member access is string concatenation. -/
def RECIPE (s : String) : Node := Node.uri (RECIPE_base ++ s)

/-- `MEAL[s]`. -/
def MEAL (s : String) : Node := Node.uri (MEAL_base ++ s)

/-- `CATEGORY[s]`. -/
def CATEGORY (s : String) : Node := Node.uri (CATEGORY_base ++ s)

/-- `CUISINE[s]`. -/
def CUISINE (s : String) : Node := Node.uri (CUISINE_base ++ s)

/-- `RDF.type`. -/
def RDF_type : Node := Node.uri "http://www.w3.org/1999/02/22-rdf-syntax-ns#type"

/-- `RDFS.label`. -/
def RDFS_label : Node := Node.uri "http://www.w3.org/2000/01/rdf-schema#label"

/-- A fetched meal record: the JSON object returned by the API, as an
association list of string fields (a Python dict of strings). -/
structure Record where
  fields : List (String × String)

/-- `meal.get(k)`: `some` value when the key is present, `none` when absent. -/
def Record.get (r : Record) (k : String) : Option String :=
  (r.fields.find? (fun p => p.1 == k)).map (fun p => p.2)

/-- The value of `meal.get(k)` when it is truthy in Python (`if meal.get(k):`):
present and not the empty string; `none` otherwise. -/
def Record.getTruthy (r : Record) (k : String) : Option String :=
  match r.get k with
  | some s => if s = "" then none else some s
  | none => none

/-- The characters removed by Python `str.strip()` (ASCII whitespace). -/
def isPySpace (c : Char) : Bool :=
  c = ' ' || c = '\t' || c = '\n' || c = '\r' || c = '\x0b' || c = '\x0c'

/-- `str.strip()` on a character list: drop leading and trailing whitespace. -/
def pyStripL (l : List Char) : List Char :=
  ((l.dropWhile isPySpace).reverse.dropWhile isPySpace).reverse

/-- Python `value.strip()`. -/
def pyStrip (s : String) : String := ⟨pyStripL s.data⟩

/-- `str.replace(" ", "_")` on a character list. -/
def pyReplaceSpaceUnderscoreL (l : List Char) : List Char :=
  l.map (fun c => if c = ' ' then '_' else c)

/-- Python `value.replace(" ", "_")`. -/
def pyReplaceSpaceUnderscore (s : String) : String :=
  ⟨pyReplaceSpaceUnderscoreL s.data⟩

/-- The characters `urllib.parse.quote` leaves unescaped with the default
`safe='/'`: ASCII alphanumerics and `_.-~/`. -/
def isSafeChar (c : Char) : Bool :=
  c.isAlpha || c.isDigit || c = '_' || c = '.' || c = '-' || c = '~' || c = '/'

/-- Uppercase hexadecimal digit for `n < 16`. -/
def hexDigitChar (n : Nat) : Char :=
  if n < 10 then Char.ofNat (48 + n) else Char.ofNat (55 + n)

/-- The UTF-8 encoding of a character, as byte values. -/
def utf8Bytes (c : Char) : List Nat :=
  let n := c.toNat
  if n < 0x80 then [n]
  else if n < 0x800 then [0xC0 + n / 0x40, 0x80 + n % 0x40]
  else if n < 0x10000 then
    [0xE0 + n / 0x1000, 0x80 + (n / 0x40) % 0x40, 0x80 + n % 0x40]
  else
    [0xF0 + n / 0x40000, 0x80 + (n / 0x1000) % 0x40,
     0x80 + (n / 0x40) % 0x40, 0x80 + n % 0x40]

/-- `urllib.parse.quote` on one character: safe characters pass through,
every other character is percent-encoded byte by byte. -/
def quoteChar (c : Char) : List Char :=
  if isSafeChar c then [c]
  else (utf8Bytes c).flatMap
    (fun b => ['%', hexDigitChar (b / 16), hexDigitChar (b % 16)])

/-- `urllib.parse.quote` on a character list. -/
def quoteL (l : List Char) : List Char := l.flatMap quoteChar

/-- `urllib.parse.quote(s)` with the default `safe='/'`. -/
def quote (s : String) : String := ⟨quoteL s.data⟩

/-- The identifier suffix computed inside `create_uri_ref`:
`quote(value.strip().replace(" ", "_"))`. -/
def normalize_label (value : String) : String :=
  quote (pyReplaceSpaceUnderscore (pyStrip value))

/-- `create_uri_ref(namespace, value)`: `None` for a falsy value, otherwise
the namespace member named by the normalized suffix. -/
def create_uri_ref (ns : String → Node) (value : String) : Option Node :=
  if value = "" then none
  else some (ns (normalize_label value))

/-- Failure of the mapper.  `add_meal_to_graph` evaluates `meal["idMeal"]`
first; on a record without that key this raises an uncaught `KeyError`
(the missing-identifier condition) before any triple is added. -/
inductive MapError where
  | missingIdentifier
deriving DecidableEq

/-- One `if meal.get(key): g.add((meal_uri, RECIPE.pred, Literal(value)))`
block of `add_meal_to_graph`, as the list of triples it adds. -/
def scalarTriple (meal : Record) (meal_uri : Node) (key pred : String) : List Triple :=
  match meal.getTruthy key with
  | some v => [(meal_uri, RECIPE pred, Node.lit v)]
  | none => []

/-- The `if meal.get("strCategory"):` block of `add_meal_to_graph`. -/
def categoryTriples (meal : Record) (meal_uri : Node) : List Triple :=
  match meal.getTruthy "strCategory" with
  | some v =>
      match create_uri_ref CATEGORY v with
      | some category_uri =>
          [(category_uri, RDF_type, RECIPE "Category"),
           (category_uri, RDFS_label, Node.lit v),
           (meal_uri, RECIPE "belongsToCategory", category_uri)]
      | none => []
  | none => []

/-- The `if meal.get("strArea"):` block of `add_meal_to_graph`. -/
def cuisineTriples (meal : Record) (meal_uri : Node) : List Triple :=
  match meal.getTruthy "strArea" with
  | some v =>
      match create_uri_ref CUISINE v with
      | some cuisine_uri =>
          [(cuisine_uri, RDF_type, RECIPE "Cuisine"),
           (cuisine_uri, RDFS_label, Node.lit v),
           (meal_uri, RECIPE "belongsToCuisine", cuisine_uri)]
      | none => []
  | none => []

/-- `URIRef(f"{INGREDIENT}{meal_id}_ingredient_{i}")`. -/
def ingredientURI (meal_id : String) (i : Nat) : Node :=
  Node.uri (INGREDIENT_base ++ meal_id ++ "_ingredient_" ++ toString i)

/-- One iteration of the `for i in range(1, 21)` ingredient loop of
`add_meal_to_graph`, as the list of triples it adds. -/
def ingredient_slot (meal : Record) (meal_id : String) (meal_uri : Node) (i : Nat) :
    List Triple :=
  match meal.get ("strIngredient" ++ toString i) with
  | none => []
  | some ingredient_name =>
      if ingredient_name ≠ "" ∧ pyStrip ingredient_name ≠ "" then
        [(ingredientURI meal_id i, RDF_type, RECIPE "Ingredient"),
         (ingredientURI meal_id i, RECIPE "ingredientName",
          Node.lit (pyStrip ingredient_name))]
        ++ (match meal.get ("strMeasure" ++ toString i) with
            | some m =>
                if m ≠ "" ∧ pyStrip m ≠ "" then
                  [(ingredientURI meal_id i, RECIPE "ingredientMeasure",
                    Node.lit (pyStrip m))]
                else []
            | none => [])
        ++ [(meal_uri, RECIPE "hasIngredient", ingredientURI meal_id i)]
      else []

/-- The whole ingredient loop `for i in range(1, 21)`. -/
def ingredientTriples (meal : Record) (meal_id : String) (meal_uri : Node) :
    List Triple :=
  (List.range' 1 20).flatMap (ingredient_slot meal meal_id meal_uri)

/-- The full, ordered list of triples one call of `add_meal_to_graph` passes
to `g.add`, or the missing-identifier failure when the record has no
`idMeal` key. -/
def meal_triples (meal : Record) : Except MapError (List Triple) :=
  match meal.get "idMeal" with
  | none => Except.error MapError.missingIdentifier
  | some meal_id =>
      Except.ok
        ([(MEAL meal_id, RDF_type, RECIPE "Meal")]
          ++ scalarTriple meal (MEAL meal_id) "strMeal" "hasName"
          ++ scalarTriple meal (MEAL meal_id) "strInstructions" "hasInstructions"
          ++ scalarTriple meal (MEAL meal_id) "strMealThumb" "hasThumbnail"
          ++ scalarTriple meal (MEAL meal_id) "strYoutube" "hasYoutubeLink"
          ++ categoryTriples meal (MEAL meal_id)
          ++ cuisineTriples meal (MEAL meal_id)
          ++ ingredientTriples meal meal_id (MEAL meal_id))

/-- `add_meal_to_graph(meal)` acting on the (explicitly passed) graph:
insert the emitted triples, in emission order, into the store. -/
def add_meal_to_graph (g : Store) (meal : Record) : Except MapError Store :=
  (meal_triples meal).map (fun ts => Store.addAll g ts)

/-- The concrete record of claim C1. -/
def beefStew : Record :=
  ⟨[("idMeal", "52874"), ("strMeal", "Beef Stew"), ("strCategory", "Beef"),
    ("strArea", "Italian"), ("strIngredient1", "Beef"), ("strMeasure1", "1kg")]⟩

/-- The triples the mapper emits for `beefStew`. -/
def beefStewTriples : List Triple :=
  [(MEAL "52874", RDF_type, RECIPE "Meal"),
   (MEAL "52874", RECIPE "hasName", Node.lit "Beef Stew"),
   (CATEGORY "Beef", RDF_type, RECIPE "Category"),
   (CATEGORY "Beef", RDFS_label, Node.lit "Beef"),
   (MEAL "52874", RECIPE "belongsToCategory", CATEGORY "Beef"),
   (CUISINE "Italian", RDF_type, RECIPE "Cuisine"),
   (CUISINE "Italian", RDFS_label, Node.lit "Italian"),
   (MEAL "52874", RECIPE "belongsToCuisine", CUISINE "Italian"),
   (ingredientURI "52874" 1, RDF_type, RECIPE "Ingredient"),
   (ingredientURI "52874" 1, RECIPE "ingredientName", Node.lit "Beef"),
   (ingredientURI "52874" 1, RECIPE "ingredientMeasure", Node.lit "1kg"),
   (MEAL "52874", RECIPE "hasIngredient", ingredientURI "52874" 1)]

/-- Claim C1, counterexample: the record of the claim does not produce 9
triples when mapped into the empty store — it produces 12. -/
theorem C1_counterexample :
    ¬ ∃ ts : Store, add_meal_to_graph Store.empty beefStew = Except.ok ts ∧
      ts.length = 9 := by
  rintro ⟨ts, hts, hlen⟩
  have h12 : add_meal_to_graph Store.empty beefStew = Except.ok beefStewTriples := by
    rfl
  rw [h12] at hts
  injection hts with h
  subst h
  exact absurd hlen (by decide)

/-- Claim C1 (amended): mapping the record with idMeal 52874, name
"Beef Stew", category "Beef", area "Italian", ingredient slot 1
"Beef"/"1kg" and all other slots empty into an empty store produces
exactly 12 pairwise distinct triples: the Meal-type triple, the hasName
triple, the Category type/label pair plus the Meal-to-Category relation,
the Cuisine type/label pair plus the Meal-to-Cuisine relation, and the
Ingredient type, name and measure triples plus the Meal-to-Ingredient
relation. -/
theorem C1_beef_stew_mapping :
    add_meal_to_graph Store.empty beefStew = Except.ok beefStewTriples ∧
    beefStewTriples.length = 12 ∧ beefStewTriples.Nodup := by
  refine ⟨rfl, rfl, ?_⟩
  decide

/-- Claim C4: a record without the idMeal key makes the mapper fail with
the missing-identifier error (the uncaught `KeyError` of the source) and
produce no triples. -/
theorem C4_missing_identifier (g : Store) (meal : Record)
    (h : meal.get "idMeal" = none) :
    add_meal_to_graph g meal = Except.error MapError.missingIdentifier := by
  simp only [add_meal_to_graph, meal_triples, h, Except.map]

/-- Witness for C4 at the empty record. -/
theorem C4_witness :
    (Record.mk []).get "idMeal" = none ∧
    add_meal_to_graph Store.empty (Record.mk []) =
      Except.error MapError.missingIdentifier :=
  ⟨rfl, C4_missing_identifier Store.empty (Record.mk []) rfl⟩

theorem Store.addAll_nil (g : Store) : g.addAll [] = g := rfl

theorem Store.addAll_cons (g : Store) (t : Triple) (ts : List Triple) :
    g.addAll (t :: ts) = (g.add t).addAll ts := rfl

theorem Store.mem_add_self (g : Store) (t : Triple) : t ∈ g.add t := by
  unfold Store.add
  split
  · assumption
  · simp

theorem Store.mem_add_of_mem {g : Store} {t : Triple} (u : Triple) (h : t ∈ g) :
    t ∈ g.add u := by
  unfold Store.add
  split
  · exact h
  · exact List.mem_append_left _ h

theorem Store.mem_addAll_of_mem {g : Store} {t : Triple} (ts : List Triple)
    (h : t ∈ g) : t ∈ g.addAll ts := by
  induction ts generalizing g with
  | nil => exact h
  | cons u rest ih => exact ih (Store.mem_add_of_mem u h)

theorem Store.mem_addAll_of_mem_list {g : Store} {t : Triple} {ts : List Triple}
    (h : t ∈ ts) : t ∈ g.addAll ts := by
  induction ts generalizing g with
  | nil => cases h
  | cons u rest ih =>
    rw [Store.addAll_cons]
    rcases List.mem_cons.mp h with h1 | h2
    · subst h1
      exact Store.mem_addAll_of_mem rest (Store.mem_add_self g t)
    · exact ih h2

theorem Store.add_eq_of_mem {g : Store} {t : Triple} (h : t ∈ g) : g.add t = g := by
  simp [Store.add, h]

theorem Store.addAll_eq_of_subset {g : Store} {ts : List Triple}
    (h : ∀ t ∈ ts, t ∈ g) : g.addAll ts = g := by
  induction ts with
  | nil => rfl
  | cons u rest ih =>
    rw [Store.addAll_cons, Store.add_eq_of_mem (h u (List.mem_cons_self u rest))]
    exact ih (fun t ht => h t (List.mem_cons_of_mem u ht))

/-- Claim C2: mapping a valid record twice and accumulating both results
into the store yields exactly the triple set of mapping it once — the
second run of `add_meal_to_graph` re-inserts triples that are already
present, which the set-union semantics of `Store.add` absorbs. -/
theorem C2_idempotent_accumulation (meal : Record) (g g' : Store)
    (h : add_meal_to_graph g meal = Except.ok g') :
    add_meal_to_graph g' meal = Except.ok g' := by
  unfold add_meal_to_graph at h ⊢
  cases hm : meal_triples meal with
  | error e => rw [hm] at h; cases h
  | ok ts =>
    rw [hm] at h
    simp only [Except.map] at h ⊢
    injection h with h
    subst h
    congr 1
    exact Store.addAll_eq_of_subset (fun t ht => Store.mem_addAll_of_mem_list ht)

/-- Witness for C2: re-mapping a one-field record onto its own output
store returns that store unchanged. -/
theorem C2_witness :
    add_meal_to_graph [(MEAL "1", RDF_type, RECIPE "Meal")]
        (Record.mk [("idMeal", "1")]) =
      Except.ok [(MEAL "1", RDF_type, RECIPE "Meal")] :=
  C2_idempotent_accumulation (Record.mk [("idMeal", "1")]) Store.empty
    [(MEAL "1", RDF_type, RECIPE "Meal")] rfl

/-- Claim C3: two non-empty strings that normalize (trim, replace spaces
with underscore, percent-encode) to the same identifier produce the same
entity URI through `create_uri_ref`; in particular "Italian" and
" Italian " both yield the cuisine identifier `Italian`. -/
theorem C3_singleton_per_normalized_label (ns : String → Node) (s1 s2 : String)
    (h1 : s1 ≠ "") (h2 : s2 ≠ "")
    (h : normalize_label s1 = normalize_label s2) :
    create_uri_ref ns s1 = create_uri_ref ns s2 ∧
    create_uri_ref CUISINE "Italian" = some (CUISINE "Italian") ∧
    create_uri_ref CUISINE " Italian " = some (CUISINE "Italian") := by
  refine ⟨?_, rfl, rfl⟩
  simp [create_uri_ref, h1, h2, h]

/-- Witness for C3 at "Italian" and " Italian ". -/
theorem C3_witness :
    create_uri_ref CUISINE "Italian" = create_uri_ref CUISINE " Italian " ∧
    create_uri_ref CUISINE "Italian" = some (CUISINE "Italian") ∧
    create_uri_ref CUISINE " Italian " = some (CUISINE "Italian") :=
  C3_singleton_per_normalized_label CUISINE "Italian" " Italian "
    (by decide) (by decide) (by decide)

/-- 1 when the Python truthiness test on a field value succeeds, else 0. -/
def presenceCount (o : Option String) : Nat :=
  match o with
  | some _ => 1
  | none => 0

theorem countP_single_ne (s p o q : Node) (h : p ≠ q) :
    List.countP (fun u => u.2.1 == q) [(s, p, o)] = 0 := by
  simp [List.countP_cons, beq_iff_eq, h]

theorem countP_scalarTriple_self (meal : Record) (uri : Node) (key pred : String) :
    (scalarTriple meal uri key pred).countP (fun u => u.2.1 == RECIPE pred) =
      presenceCount (meal.getTruthy key) := by
  cases h : meal.getTruthy key <;>
    simp [scalarTriple, h, presenceCount, List.countP_cons]

theorem countP_scalarTriple_ne (meal : Record) (uri : Node) (key pred : String)
    (p : Node) (h : RECIPE pred ≠ p) :
    (scalarTriple meal uri key pred).countP (fun u => u.2.1 == p) = 0 := by
  cases hk : meal.getTruthy key <;>
    simp [scalarTriple, hk, List.countP_cons, beq_iff_eq, h]

theorem countP_categoryTriples (meal : Record) (uri : Node) (p : Node)
    (h1 : RDF_type ≠ p) (h2 : RDFS_label ≠ p)
    (h3 : RECIPE "belongsToCategory" ≠ p) :
    (categoryTriples meal uri).countP (fun u => u.2.1 == p) = 0 := by
  cases hk : meal.getTruthy "strCategory" with
  | none => simp [categoryTriples, hk]
  | some v =>
    cases hc : create_uri_ref CATEGORY v with
    | none => simp [categoryTriples, hk, hc]
    | some cu =>
      simp [categoryTriples, hk, hc, List.countP_cons, beq_iff_eq, h1, h2, h3]

theorem countP_cuisineTriples (meal : Record) (uri : Node) (p : Node)
    (h1 : RDF_type ≠ p) (h2 : RDFS_label ≠ p)
    (h3 : RECIPE "belongsToCuisine" ≠ p) :
    (cuisineTriples meal uri).countP (fun u => u.2.1 == p) = 0 := by
  cases hk : meal.getTruthy "strArea" with
  | none => simp [cuisineTriples, hk]
  | some v =>
    cases hc : create_uri_ref CUISINE v with
    | none => simp [cuisineTriples, hk, hc]
    | some cu =>
      simp [cuisineTriples, hk, hc, List.countP_cons, beq_iff_eq, h1, h2, h3]

theorem countP_ingredient_slot (meal : Record) (meal_id : String) (uri : Node)
    (i : Nat) (p : Node) (h1 : RDF_type ≠ p) (h2 : RECIPE "ingredientName" ≠ p)
    (h3 : RECIPE "ingredientMeasure" ≠ p) (h4 : RECIPE "hasIngredient" ≠ p) :
    (ingredient_slot meal meal_id uri i).countP (fun u => u.2.1 == p) = 0 := by
  cases hgi : meal.get ("strIngredient" ++ toString i) with
  | none => simp [ingredient_slot, hgi]
  | some nm =>
    by_cases hcond : nm ≠ "" ∧ pyStrip nm ≠ ""
    · cases hgm : meal.get ("strMeasure" ++ toString i) with
      | none =>
        simp [ingredient_slot, hgi, hgm, hcond, List.countP_append,
          List.countP_cons, beq_iff_eq, h1, h2, h4]
      | some m =>
        by_cases hm : m ≠ "" ∧ pyStrip m ≠ ""
        · simp [ingredient_slot, hgi, hgm, hcond, hm, List.countP_append,
            List.countP_cons, beq_iff_eq, h1, h2, h3, h4]
        · simp [ingredient_slot, hgi, hgm, hcond, hm, List.countP_append,
            List.countP_cons, beq_iff_eq, h1, h2, h4]
    · simp [ingredient_slot, hgi, hcond]

theorem countP_ingredientTriples (meal : Record) (meal_id : String) (uri : Node)
    (p : Node) (h1 : RDF_type ≠ p) (h2 : RECIPE "ingredientName" ≠ p)
    (h3 : RECIPE "ingredientMeasure" ≠ p) (h4 : RECIPE "hasIngredient" ≠ p) :
    (ingredientTriples meal meal_id uri).countP (fun u => u.2.1 == p) = 0 := by
  unfold ingredientTriples
  have hgen : ∀ l : List Nat,
      (l.flatMap (ingredient_slot meal meal_id uri)).countP
        (fun u => u.2.1 == p) = 0 := by
    intro l
    induction l with
    | nil => simp
    | cons a as ih =>
      simp [List.flatMap_cons, List.countP_append, ih,
        countP_ingredient_slot meal meal_id uri a p h1 h2 h3 h4]
  exact hgen _

/-- Claim C5: for each of the four scalar fields (strMeal, strInstructions,
strMealThumb, strYoutube), a record with the field present and non-empty
gets exactly one triple with that field's predicate, namely
(Meal, predicate, Literal(raw value)); a record with the field absent or
empty gets no triple with that predicate at all — in particular no
hasYoutubeLink triple (and no empty-string literal) when strYoutube is
missing. -/
theorem C5_scalar_field_triples (meal : Record) (id : String) (ts : List Triple)
    (hid : meal.get "idMeal" = some id)
    (hts : meal_triples meal = Except.ok ts) :
    (ts.countP (fun u => u.2.1 == RECIPE "hasName") =
        presenceCount (meal.getTruthy "strMeal")) ∧
    (∀ v, meal.getTruthy "strMeal" = some v →
        (MEAL id, RECIPE "hasName", Node.lit v) ∈ ts) ∧
    (ts.countP (fun u => u.2.1 == RECIPE "hasInstructions") =
        presenceCount (meal.getTruthy "strInstructions")) ∧
    (∀ v, meal.getTruthy "strInstructions" = some v →
        (MEAL id, RECIPE "hasInstructions", Node.lit v) ∈ ts) ∧
    (ts.countP (fun u => u.2.1 == RECIPE "hasThumbnail") =
        presenceCount (meal.getTruthy "strMealThumb")) ∧
    (∀ v, meal.getTruthy "strMealThumb" = some v →
        (MEAL id, RECIPE "hasThumbnail", Node.lit v) ∈ ts) ∧
    (ts.countP (fun u => u.2.1 == RECIPE "hasYoutubeLink") =
        presenceCount (meal.getTruthy "strYoutube")) ∧
    (∀ v, meal.getTruthy "strYoutube" = some v →
        (MEAL id, RECIPE "hasYoutubeLink", Node.lit v) ∈ ts) := by
  simp only [meal_triples, hid] at hts
  injection hts with h
  subst h
  refine ⟨?_, ?_, ?_, ?_, ?_, ?_, ?_, ?_⟩
  · simp only [List.countP_append]
    rw [countP_single_ne _ _ _ _ (by decide),
      countP_scalarTriple_self,
      countP_scalarTriple_ne _ _ "strInstructions" "hasInstructions" _ (by decide),
      countP_scalarTriple_ne _ _ "strMealThumb" "hasThumbnail" _ (by decide),
      countP_scalarTriple_ne _ _ "strYoutube" "hasYoutubeLink" _ (by decide),
      countP_categoryTriples _ _ _ (by decide) (by decide) (by decide),
      countP_cuisineTriples _ _ _ (by decide) (by decide) (by decide),
      countP_ingredientTriples _ _ _ _ (by decide) (by decide) (by decide)
        (by decide)]
    omega
  · intro v hv
    have hs : scalarTriple meal (MEAL id) "strMeal" "hasName" =
        [(MEAL id, RECIPE "hasName", Node.lit v)] := by
      simp [scalarTriple, hv]
    simp [List.mem_append, hs]
  · simp only [List.countP_append]
    rw [countP_single_ne _ _ _ _ (by decide),
      countP_scalarTriple_self,
      countP_scalarTriple_ne _ _ "strMeal" "hasName" _ (by decide),
      countP_scalarTriple_ne _ _ "strMealThumb" "hasThumbnail" _ (by decide),
      countP_scalarTriple_ne _ _ "strYoutube" "hasYoutubeLink" _ (by decide),
      countP_categoryTriples _ _ _ (by decide) (by decide) (by decide),
      countP_cuisineTriples _ _ _ (by decide) (by decide) (by decide),
      countP_ingredientTriples _ _ _ _ (by decide) (by decide) (by decide)
        (by decide)]
    omega
  · intro v hv
    have hs : scalarTriple meal (MEAL id) "strInstructions" "hasInstructions" =
        [(MEAL id, RECIPE "hasInstructions", Node.lit v)] := by
      simp [scalarTriple, hv]
    simp [List.mem_append, hs]
  · simp only [List.countP_append]
    rw [countP_single_ne _ _ _ _ (by decide),
      countP_scalarTriple_self,
      countP_scalarTriple_ne _ _ "strMeal" "hasName" _ (by decide),
      countP_scalarTriple_ne _ _ "strInstructions" "hasInstructions" _ (by decide),
      countP_scalarTriple_ne _ _ "strYoutube" "hasYoutubeLink" _ (by decide),
      countP_categoryTriples _ _ _ (by decide) (by decide) (by decide),
      countP_cuisineTriples _ _ _ (by decide) (by decide) (by decide),
      countP_ingredientTriples _ _ _ _ (by decide) (by decide) (by decide)
        (by decide)]
    omega
  · intro v hv
    have hs : scalarTriple meal (MEAL id) "strMealThumb" "hasThumbnail" =
        [(MEAL id, RECIPE "hasThumbnail", Node.lit v)] := by
      simp [scalarTriple, hv]
    simp [List.mem_append, hs]
  · simp only [List.countP_append]
    rw [countP_single_ne _ _ _ _ (by decide),
      countP_scalarTriple_self,
      countP_scalarTriple_ne _ _ "strMeal" "hasName" _ (by decide),
      countP_scalarTriple_ne _ _ "strInstructions" "hasInstructions" _ (by decide),
      countP_scalarTriple_ne _ _ "strMealThumb" "hasThumbnail" _ (by decide),
      countP_categoryTriples _ _ _ (by decide) (by decide) (by decide),
      countP_cuisineTriples _ _ _ (by decide) (by decide) (by decide),
      countP_ingredientTriples _ _ _ _ (by decide) (by decide) (by decide)
        (by decide)]
    omega
  · intro v hv
    have hs : scalarTriple meal (MEAL id) "strYoutube" "hasYoutubeLink" =
        [(MEAL id, RECIPE "hasYoutubeLink", Node.lit v)] := by
      simp [scalarTriple, hv]
    simp [List.mem_append, hs]

/-- The concrete record used as the C5 witness: strMeal present, the other
three scalar fields absent. -/
def C5meal : Record := ⟨[("idMeal", "7"), ("strMeal", "Pie")]⟩

/-- The triples emitted for `C5meal`. -/
def C5ts : List Triple :=
  [(MEAL "7", RDF_type, RECIPE "Meal"),
   (MEAL "7", RECIPE "hasName", Node.lit "Pie")]

/-- Witness for C5 at a record with only idMeal and strMeal. -/
theorem C5_witness :
    (C5ts.countP (fun u => u.2.1 == RECIPE "hasName") =
        presenceCount (C5meal.getTruthy "strMeal")) ∧
    (∀ v, C5meal.getTruthy "strMeal" = some v →
        (MEAL "7", RECIPE "hasName", Node.lit v) ∈ C5ts) ∧
    (C5ts.countP (fun u => u.2.1 == RECIPE "hasInstructions") =
        presenceCount (C5meal.getTruthy "strInstructions")) ∧
    (∀ v, C5meal.getTruthy "strInstructions" = some v →
        (MEAL "7", RECIPE "hasInstructions", Node.lit v) ∈ C5ts) ∧
    (C5ts.countP (fun u => u.2.1 == RECIPE "hasThumbnail") =
        presenceCount (C5meal.getTruthy "strMealThumb")) ∧
    (∀ v, C5meal.getTruthy "strMealThumb" = some v →
        (MEAL "7", RECIPE "hasThumbnail", Node.lit v) ∈ C5ts) ∧
    (C5ts.countP (fun u => u.2.1 == RECIPE "hasYoutubeLink") =
        presenceCount (C5meal.getTruthy "strYoutube")) ∧
    (∀ v, C5meal.getTruthy "strYoutube" = some v →
        (MEAL "7", RECIPE "hasYoutubeLink", Node.lit v) ∈ C5ts) :=
  C5_scalar_field_triples C5meal "7" C5ts rfl rfl

/-- First record of claim C9: category "Beef" with no surrounding blanks. -/
def catRec1 : Record := ⟨[("idMeal", "1"), ("strCategory", "Beef")]⟩

/-- Second record of claim C9: category " Beef " with surrounding blanks. -/
def catRec2 : Record := ⟨[("idMeal", "2"), ("strCategory", " Beef ")]⟩

/-- The store after mapping `catRec1` into the empty store. -/
def catStore1 : Store :=
  [(MEAL "1", RDF_type, RECIPE "Meal"),
   (CATEGORY "Beef", RDF_type, RECIPE "Category"),
   (CATEGORY "Beef", RDFS_label, Node.lit "Beef"),
   (MEAL "1", RECIPE "belongsToCategory", CATEGORY "Beef")]

/-- The store after additionally mapping `catRec2`: the Category-type
triple is deduplicated, the two raw labels are not. -/
def catStore2 : Store :=
  catStore1 ++
  [(MEAL "2", RDF_type, RECIPE "Meal"),
   (CATEGORY "Beef", RDFS_label, Node.lit " Beef "),
   (MEAL "2", RECIPE "belongsToCategory", CATEGORY "Beef")]

/-- Claim C9: the rdfs:label literal on a Category entity is the raw field
value, not the normalized one: mapping records with categories "Beef"
and " Beef " yields one Category entity (a single Category-type triple)
but two distinct rdfs:label triples on that one URI. -/
theorem C9_raw_label_literal :
    add_meal_to_graph Store.empty catRec1 = Except.ok catStore1 ∧
    add_meal_to_graph catStore1 catRec2 = Except.ok catStore2 ∧
    catStore2.countP
      (fun u => u.2.1 == RDF_type && u.2.2 == RECIPE "Category") = 1 ∧
    (CATEGORY "Beef", RDFS_label, Node.lit "Beef") ∈ catStore2 ∧
    (CATEGORY "Beef", RDFS_label, Node.lit " Beef ") ∈ catStore2 ∧
    Node.lit "Beef" ≠ Node.lit " Beef " ∧
    catStore2.countP
      (fun u => u.1 == CATEGORY "Beef" && u.2.1 == RDFS_label) = 2 :=
  ⟨rfl, rfl, by decide, by decide, by decide, by decide, by decide⟩

/-- Claim C10: for a record that has the idMeal key, the Meal-type triple
is emitted first, before any other field is examined; a record whose
optional fields are all absent or empty produces exactly that one triple. -/
theorem C10_meal_type_first (meal : Record) (id : String)
    (hid : meal.get "idMeal" = some id) :
    (∀ ts, meal_triples meal = Except.ok ts →
        ts.head? = some (MEAL id, RDF_type, RECIPE "Meal")) ∧
    (meal.getTruthy "strMeal" = none →
     meal.getTruthy "strInstructions" = none →
     meal.getTruthy "strMealThumb" = none →
     meal.getTruthy "strYoutube" = none →
     meal.getTruthy "strCategory" = none →
     meal.getTruthy "strArea" = none →
     (∀ i ∈ List.range' 1 20, ∀ nm,
        meal.get ("strIngredient" ++ toString i) = some nm → pyStrip nm = "") →
     meal_triples meal = Except.ok [(MEAL id, RDF_type, RECIPE "Meal")]) := by
  constructor
  · intro ts hts
    simp only [meal_triples, hid] at hts
    injection hts with h
    subst h
    rfl
  · intro h1 h2 h3 h4 hcat harea hing
    simp only [meal_triples, hid]
    have s1 : scalarTriple meal (MEAL id) "strMeal" "hasName" = [] := by
      simp [scalarTriple, h1]
    have s2 : scalarTriple meal (MEAL id) "strInstructions" "hasInstructions" = [] := by
      simp [scalarTriple, h2]
    have s3 : scalarTriple meal (MEAL id) "strMealThumb" "hasThumbnail" = [] := by
      simp [scalarTriple, h3]
    have s4 : scalarTriple meal (MEAL id) "strYoutube" "hasYoutubeLink" = [] := by
      simp [scalarTriple, h4]
    have sc : categoryTriples meal (MEAL id) = [] := by
      simp [categoryTriples, hcat]
    have sq : cuisineTriples meal (MEAL id) = [] := by
      simp [cuisineTriples, harea]
    have si : ingredientTriples meal id (MEAL id) = [] := by
      unfold ingredientTriples
      rw [List.flatMap_eq_nil_iff]
      intro i hi
      cases hgi : meal.get ("strIngredient" ++ toString i) with
      | none => simp [ingredient_slot, hgi]
      | some nm => simp [ingredient_slot, hgi, hing i hi nm hgi]
    rw [s1, s2, s3, s4, sc, sq, si]
    simp

/-- Witness for C10 at a record holding only an idMeal. -/
theorem C10_witness :
    (∀ ts, meal_triples (Record.mk [("idMeal", "42")]) = Except.ok ts →
        ts.head? = some (MEAL "42", RDF_type, RECIPE "Meal")) ∧
    ((Record.mk [("idMeal", "42")]).getTruthy "strMeal" = none →
     (Record.mk [("idMeal", "42")]).getTruthy "strInstructions" = none →
     (Record.mk [("idMeal", "42")]).getTruthy "strMealThumb" = none →
     (Record.mk [("idMeal", "42")]).getTruthy "strYoutube" = none →
     (Record.mk [("idMeal", "42")]).getTruthy "strCategory" = none →
     (Record.mk [("idMeal", "42")]).getTruthy "strArea" = none →
     (∀ i ∈ List.range' 1 20, ∀ nm,
        (Record.mk [("idMeal", "42")]).get ("strIngredient" ++ toString i) =
          some nm → pyStrip nm = "") →
     meal_triples (Record.mk [("idMeal", "42")]) =
       Except.ok [(MEAL "42", RDF_type, RECIPE "Meal")]) :=
  C10_meal_type_first (Record.mk [("idMeal", "42")]) "42" rfl

theorem ingredient_slot_congr (meal meal2 : Record) (meal_id : String)
    (meal_uri : Node) (i : Nat)
    (hn : meal.get ("strIngredient" ++ toString i) =
          meal2.get ("strIngredient" ++ toString i))
    (hm : meal.get ("strMeasure" ++ toString i) =
          meal2.get ("strMeasure" ++ toString i)) :
    ingredient_slot meal meal_id meal_uri i =
      ingredient_slot meal2 meal_id meal_uri i := by
  unfold ingredient_slot
  rw [← hn, ← hm]

/-- Claim C6: the mapper inspects exactly ingredient slots 1 through 20 and
reads nothing else; a slot whose name strips to empty (or is missing) is
skipped silently; a slot with a non-empty stripped name yields the
Ingredient URI synthesized from the meal id and the slot index, its type
and name triples, the measure triple exactly when the measure strips
non-empty, and the Meal-to-Ingredient relation. -/
theorem C6_ingredient_slots (meal meal2 : Record) (meal_id : String)
    (meal_uri : Node)
    (hagree : ∀ i ∈ List.range' 1 20,
        meal.get ("strIngredient" ++ toString i) =
          meal2.get ("strIngredient" ++ toString i) ∧
        meal.get ("strMeasure" ++ toString i) =
          meal2.get ("strMeasure" ++ toString i)) :
    ingredientTriples meal meal_id meal_uri =
      (List.range' 1 20).flatMap (ingredient_slot meal meal_id meal_uri) ∧
    ingredientTriples meal meal_id meal_uri =
      ingredientTriples meal2 meal_id meal_uri ∧
    (∀ i, (∀ nm, meal.get ("strIngredient" ++ toString i) = some nm →
        pyStrip nm = "") →
      ingredient_slot meal meal_id meal_uri i = []) ∧
    (∀ i nm m, meal.get ("strIngredient" ++ toString i) = some nm →
        pyStrip nm ≠ "" →
        meal.get ("strMeasure" ++ toString i) = some m → pyStrip m ≠ "" →
        ingredient_slot meal meal_id meal_uri i =
          [(ingredientURI meal_id i, RDF_type, RECIPE "Ingredient"),
           (ingredientURI meal_id i, RECIPE "ingredientName",
            Node.lit (pyStrip nm)),
           (ingredientURI meal_id i, RECIPE "ingredientMeasure",
            Node.lit (pyStrip m)),
           (meal_uri, RECIPE "hasIngredient", ingredientURI meal_id i)]) ∧
    (∀ i nm, meal.get ("strIngredient" ++ toString i) = some nm →
        pyStrip nm ≠ "" →
        (∀ m, meal.get ("strMeasure" ++ toString i) = some m →
            pyStrip m = "") →
        ingredient_slot meal meal_id meal_uri i =
          [(ingredientURI meal_id i, RDF_type, RECIPE "Ingredient"),
           (ingredientURI meal_id i, RECIPE "ingredientName",
            Node.lit (pyStrip nm)),
           (meal_uri, RECIPE "hasIngredient", ingredientURI meal_id i)]) := by
  refine ⟨rfl, ?_, ?_, ?_, ?_⟩
  · unfold ingredientTriples
    have hgen : ∀ l : List Nat,
        (∀ i ∈ l,
          meal.get ("strIngredient" ++ toString i) =
            meal2.get ("strIngredient" ++ toString i) ∧
          meal.get ("strMeasure" ++ toString i) =
            meal2.get ("strMeasure" ++ toString i)) →
        l.flatMap (ingredient_slot meal meal_id meal_uri) =
          l.flatMap (ingredient_slot meal2 meal_id meal_uri) := by
      intro l
      induction l with
      | nil => intro _; rfl
      | cons a as ih =>
        intro h
        have ha := h a (List.mem_cons_self a as)
        simp only [List.flatMap_cons]
        rw [ingredient_slot_congr meal meal2 meal_id meal_uri a ha.1 ha.2,
          ih (fun i hi => h i (List.mem_cons_of_mem a hi))]
    exact hgen _ hagree
  · intro i hnm
    cases hgi : meal.get ("strIngredient" ++ toString i) with
    | none => simp [ingredient_slot, hgi]
    | some nm => simp [ingredient_slot, hgi, hnm nm hgi]
  · intro i nm m hnm hsnm hm hsm
    have hne : nm ≠ "" := by
      intro e
      exact hsnm (by rw [e]; rfl)
    have hmne : m ≠ "" := by
      intro e
      exact hsm (by rw [e]; rfl)
    simp [ingredient_slot, hnm, hm, hsnm, hsm, hne, hmne]
  · intro i nm hnm hsnm hmeas
    have hne : nm ≠ "" := by
      intro e
      exact hsnm (by rw [e]; rfl)
    cases hgm : meal.get ("strMeasure" ++ toString i) with
    | none => simp [ingredient_slot, hnm, hgm, hsnm, hne]
    | some m => simp [ingredient_slot, hnm, hgm, hsnm, hne, hmeas m hgm]

/-- The concrete record used as the C6 witness: slot 1 full, slot 2 a
blank-only name. -/
def C6meal : Record :=
  ⟨[("idMeal", "9"), ("strIngredient1", "Salt"), ("strMeasure1", "1 tsp"),
    ("strIngredient2", "  ")]⟩

/-- Witness for C6 at `C6meal` (compared with itself, so the agreement
hypothesis is trivial). -/
theorem C6_witness :
    ingredientTriples C6meal "9" (MEAL "9") =
      (List.range' 1 20).flatMap (ingredient_slot C6meal "9" (MEAL "9")) ∧
    ingredientTriples C6meal "9" (MEAL "9") =
      ingredientTriples C6meal "9" (MEAL "9") ∧
    (∀ i, (∀ nm, C6meal.get ("strIngredient" ++ toString i) = some nm →
        pyStrip nm = "") →
      ingredient_slot C6meal "9" (MEAL "9") i = []) ∧
    (∀ i nm m, C6meal.get ("strIngredient" ++ toString i) = some nm →
        pyStrip nm ≠ "" →
        C6meal.get ("strMeasure" ++ toString i) = some m → pyStrip m ≠ "" →
        ingredient_slot C6meal "9" (MEAL "9") i =
          [(ingredientURI "9" i, RDF_type, RECIPE "Ingredient"),
           (ingredientURI "9" i, RECIPE "ingredientName",
            Node.lit (pyStrip nm)),
           (ingredientURI "9" i, RECIPE "ingredientMeasure",
            Node.lit (pyStrip m)),
           (MEAL "9", RECIPE "hasIngredient", ingredientURI "9" i)]) ∧
    (∀ i nm, C6meal.get ("strIngredient" ++ toString i) = some nm →
        pyStrip nm ≠ "" →
        (∀ m, C6meal.get ("strMeasure" ++ toString i) = some m →
            pyStrip m = "") →
        ingredient_slot C6meal "9" (MEAL "9") i =
          [(ingredientURI "9" i, RDF_type, RECIPE "Ingredient"),
           (ingredientURI "9" i, RECIPE "ingredientName",
            Node.lit (pyStrip nm)),
           (MEAL "9", RECIPE "hasIngredient", ingredientURI "9" i)]) :=
  C6_ingredient_slots C6meal C6meal "9" (MEAL "9") (fun _ _ => ⟨rfl, rfl⟩)

theorem rev_getElem_of_append_eq (A B C D : List Char) (h : A ++ C = B ++ D)
    (k : Nat) (h1 : k < C.length) (h2 : k < D.length) :
    C.reverse[k]? = D.reverse[k]? := by
  have hr := congrArg List.reverse h
  rw [List.reverse_append, List.reverse_append] at hr
  have e1 : (C.reverse ++ A.reverse)[k]? = C.reverse[k]? :=
    List.getElem?_append_left (by simpa using h1)
  have e2 : (D.reverse ++ B.reverse)[k]? = D.reverse[k]? :=
    List.getElem?_append_left (by simpa using h2)
  rw [← e1, hr, e2]

theorem ing_suffix_inj : ∀ i1 ∈ List.range' 1 20, ∀ i2 ∈ List.range' 1 20,
    ("_ingredient_" ++ toString i1).data.reverse[0]? =
      ("_ingredient_" ++ toString i2).data.reverse[0]? →
    ("_ingredient_" ++ toString i1).data.reverse[1]? =
      ("_ingredient_" ++ toString i2).data.reverse[1]? →
    i1 = i2 := by decide

/-- Claim C7: Ingredient entities are never shared — for slot indices in
1..20, two slots with different meal ids or different indices always get
distinct Ingredient URIs, whatever the ingredient names are. -/
theorem C7_ingredient_uris_distinct (id1 id2 : String) (i1 i2 : Nat)
    (h1 : i1 ∈ List.range' 1 20) (h2 : i2 ∈ List.range' 1 20)
    (hne : id1 ≠ id2 ∨ i1 ≠ i2) :
    ingredientURI id1 i1 ≠ ingredientURI id2 i2 := by
  intro heq
  have hs : INGREDIENT_base ++ id1 ++ "_ingredient_" ++ toString i1 =
      INGREDIENT_base ++ id2 ++ "_ingredient_" ++ toString i2 := by
    injection heq
  have hd' : (INGREDIENT_base.data ++ id1.data) ++
        ("_ingredient_" ++ toString i1).data =
      (INGREDIENT_base.data ++ id2.data) ++
        ("_ingredient_" ++ toString i2).data := by
    have hflat := congrArg String.data hs
    simp only [String.data_append, List.append_assoc] at hflat ⊢
    exact hflat
  by_cases hii : i1 = i2
  · subst hii
    have hA := List.append_cancel_right hd'
    have hid := List.append_cancel_left hA
    rcases hne with h | h
    · exact h (String.ext hid)
    · exact h rfl
  · have l1a : (1 : Nat) < ("_ingredient_" ++ toString i1).data.length := by
      rw [String.data_append, List.length_append]
      have h12 : "_ingredient_".data.length = 12 := rfl
      omega
    have l2a : (1 : Nat) < ("_ingredient_" ++ toString i2).data.length := by
      rw [String.data_append, List.length_append]
      have h12 : "_ingredient_".data.length = 12 := rfl
      omega
    have e0 := rev_getElem_of_append_eq _ _ _ _ hd' 0 (by omega) (by omega)
    have e1 := rev_getElem_of_append_eq _ _ _ _ hd' 1 l1a l2a
    exact hii (ing_suffix_inj i1 h1 i2 h2 e0 e1)

/-- Witness for C7: slots 1 and 2 of the same meal "A" name distinct
Ingredient entities. -/
theorem C7_witness : ingredientURI "A" 1 ≠ ingredientURI "A" 2 :=
  C7_ingredient_uris_distinct "A" "A" 1 2 (by decide) (by decide)
    (Or.inr (by decide))

/-- Two character lists of the same length that agree everywhere except
possibly at positions where both hold ASCII letters with the same
lowercase form — i.e. strings "differing only by letter case". -/
def caseOnlyDiff : List Char → List Char → Bool
  | [], [] => true
  | c1 :: t1, c2 :: t2 =>
      (c1 == c2 || (c1.isAlpha && c2.isAlpha && c1.toLower == c2.toLower)) &&
        caseOnlyDiff t1 t2
  | _, _ => false

theorem caseOnlyDiff_nil_left {l : List Char} (h : caseOnlyDiff [] l = true) :
    l = [] := by
  cases l with
  | nil => rfl
  | cons a t => simp [caseOnlyDiff] at h

theorem caseOnlyDiff_nil_right {l : List Char} (h : caseOnlyDiff l [] = true) :
    l = [] := by
  cases l with
  | nil => rfl
  | cons a t => simp [caseOnlyDiff] at h

theorem caseOnlyDiff_cons_iff (c1 c2 : Char) (t1 t2 : List Char) :
    caseOnlyDiff (c1 :: t1) (c2 :: t2) = true ↔
    ((c1 = c2 ∨
      (c1.isAlpha = true ∧ c2.isAlpha = true ∧ c1.toLower = c2.toLower)) ∧
      caseOnlyDiff t1 t2 = true) := by
  simp [caseOnlyDiff, Bool.and_eq_true, Bool.or_eq_true, beq_iff_eq, and_assoc]

theorem alpha_not_pyspace {c : Char} (h : c.isAlpha = true) :
    isPySpace c = false := by
  cases hx : isPySpace c
  · rfl
  · exfalso
    simp only [isPySpace, Bool.or_eq_true, decide_eq_true_eq] at hx
    rcases hx with ((((e | e) | e) | e) | e) | e <;> subst e <;>
      exact absurd h (by decide)

theorem alpha_ne_space {c : Char} (h : c.isAlpha = true) : c ≠ ' ' := by
  intro e
  subst e
  exact absurd h (by decide)

theorem alpha_safe {c : Char} (h : c.isAlpha = true) : isSafeChar c = true := by
  simp [isSafeChar, h]

theorem caseOnlyDiff_dropWhile (l1 : List Char) :
    ∀ l2 : List Char, caseOnlyDiff l1 l2 = true →
      caseOnlyDiff (l1.dropWhile isPySpace) (l2.dropWhile isPySpace) = true ∧
      (l1.dropWhile isPySpace = l2.dropWhile isPySpace → l1 = l2) := by
  induction l1 with
  | nil =>
    intro l2 h
    rw [caseOnlyDiff_nil_left h]
    exact ⟨rfl, fun _ => rfl⟩
  | cons c1 t1 ih =>
    intro l2 h
    cases l2 with
    | nil => simp [caseOnlyDiff] at h
    | cons c2 t2 =>
      obtain ⟨hc, ht⟩ := (caseOnlyDiff_cons_iff c1 c2 t1 t2).mp h
      by_cases hsp : isPySpace c1 = true
      · have hcc : c1 = c2 := by
          rcases hc with e | ⟨ha1, _, _⟩
          · exact e
          · rw [alpha_not_pyspace ha1] at hsp
            cases hsp
        subst hcc
        simp only [List.dropWhile_cons, hsp, if_true]
        obtain ⟨ih1, ih2⟩ := ih t2 ht
        exact ⟨ih1, fun e => by rw [ih2 e]⟩
      · have hsp1 : isPySpace c1 = false := by
          cases hx : isPySpace c1
          · rfl
          · exact absurd hx hsp
        have hsp2 : isPySpace c2 = false := by
          rcases hc with e | ⟨_, ha2, _⟩
          · rw [← e]; exact hsp1
          · exact alpha_not_pyspace ha2
        simp only [List.dropWhile_cons, hsp1, hsp2, if_false]
        exact ⟨h, fun e => e⟩

theorem caseOnlyDiff_append (a : List Char) :
    ∀ b c d : List Char, caseOnlyDiff a b = true → caseOnlyDiff c d = true →
      caseOnlyDiff (a ++ c) (b ++ d) = true := by
  induction a with
  | nil =>
    intro b c d hab hcd
    rw [caseOnlyDiff_nil_left hab]
    simpa using hcd
  | cons x xs ih =>
    intro b c d hab hcd
    cases b with
    | nil => simp [caseOnlyDiff] at hab
    | cons y ys =>
      obtain ⟨hc, ht⟩ := (caseOnlyDiff_cons_iff x y xs ys).mp hab
      simp only [List.cons_append]
      exact (caseOnlyDiff_cons_iff x y (xs ++ c) (ys ++ d)).mpr
        ⟨hc, ih ys c d ht hcd⟩

theorem caseOnlyDiff_reverse (a : List Char) :
    ∀ b : List Char, caseOnlyDiff a b = true →
      caseOnlyDiff a.reverse b.reverse = true := by
  induction a with
  | nil =>
    intro b h
    rw [caseOnlyDiff_nil_left h]
    rfl
  | cons x xs ih =>
    intro b h
    cases b with
    | nil => simp [caseOnlyDiff] at h
    | cons y ys =>
      obtain ⟨hc, ht⟩ := (caseOnlyDiff_cons_iff x y xs ys).mp h
      simp only [List.reverse_cons]
      exact caseOnlyDiff_append xs.reverse ys.reverse [x] [y] (ih ys ht)
        ((caseOnlyDiff_cons_iff x y [] []).mpr ⟨hc, rfl⟩)

theorem caseOnlyDiff_replace (a : List Char) :
    ∀ b : List Char, caseOnlyDiff a b = true →
      caseOnlyDiff (pyReplaceSpaceUnderscoreL a) (pyReplaceSpaceUnderscoreL b) =
        true ∧
      (pyReplaceSpaceUnderscoreL a = pyReplaceSpaceUnderscoreL b → a = b) := by
  induction a with
  | nil =>
    intro b h
    rw [caseOnlyDiff_nil_left h]
    exact ⟨rfl, fun _ => rfl⟩
  | cons x xs ih =>
    intro b h
    cases b with
    | nil => simp [caseOnlyDiff] at h
    | cons y ys =>
      obtain ⟨hc, ht⟩ := (caseOnlyDiff_cons_iff x y xs ys).mp h
      obtain ⟨ih1, ih2⟩ := ih ys ht
      constructor
      · simp only [pyReplaceSpaceUnderscoreL, List.map_cons]
        refine (caseOnlyDiff_cons_iff _ _ _ _).mpr ⟨?_, ih1⟩
        rcases hc with e | ⟨h1, h2, h3⟩
        · left; rw [e]
        · right
          rw [if_neg (alpha_ne_space h1), if_neg (alpha_ne_space h2)]
          exact ⟨h1, h2, h3⟩
      · intro he
        simp only [pyReplaceSpaceUnderscoreL, List.map_cons,
          List.cons.injEq] at he
        obtain ⟨hh, htl⟩ := he
        have hxy : x = y := by
          rcases hc with e | ⟨h1, h2, _⟩
          · exact e
          · rwa [if_neg (alpha_ne_space h1), if_neg (alpha_ne_space h2)] at hh
        rw [hxy, ih2 htl]

theorem quoteL_ne (a : List Char) :
    ∀ b : List Char, caseOnlyDiff a b = true → a ≠ b → quoteL a ≠ quoteL b := by
  induction a with
  | nil =>
    intro b h hne
    rw [caseOnlyDiff_nil_left h] at hne
    exact absurd rfl hne
  | cons x xs ih =>
    intro b h hne
    cases b with
    | nil => simp [caseOnlyDiff] at h
    | cons y ys =>
      obtain ⟨hc, ht⟩ := (caseOnlyDiff_cons_iff x y xs ys).mp h
      by_cases hxy : x = y
      · subst hxy
        have hxs : xs ≠ ys := by
          intro e2
          exact hne (by rw [e2])
        intro hq
        simp only [quoteL, List.flatMap_cons] at hq
        exact ih ys ht hxs (List.append_cancel_left hq)
      · have halpha : x.isAlpha = true ∧ y.isAlpha = true := by
          rcases hc with e | ⟨h1, h2, _⟩
          · exact absurd e hxy
          · exact ⟨h1, h2⟩
        intro hq
        simp only [quoteL, List.flatMap_cons] at hq
        have qx : quoteChar x = [x] := by simp [quoteChar, alpha_safe halpha.1]
        have qy : quoteChar y = [y] := by simp [quoteChar, alpha_safe halpha.2]
        rw [qx, qy] at hq
        simp only [List.cons_append, List.nil_append, List.cons.injEq] at hq
        exact hxy hq.1

theorem normalize_label_ne_of_caseOnlyDiff (s1 s2 : String) (hne : s1 ≠ s2)
    (hrel : caseOnlyDiff s1.data s2.data = true) :
    normalize_label s1 ≠ normalize_label s2 := by
  have hd : s1.data ≠ s2.data := fun e => hne (String.ext e)
  have st1 := caseOnlyDiff_dropWhile s1.data s2.data hrel
  have st2 := caseOnlyDiff_reverse _ _ st1.1
  have st3 := caseOnlyDiff_dropWhile _ _ st2
  have st4 := caseOnlyDiff_reverse _ _ st3.1
  have strip_inj : pyStripL s1.data = pyStripL s2.data → s1.data = s2.data := by
    intro e
    have e2 := st3.2 (List.reverse_inj.mp e)
    exact st1.2 (List.reverse_inj.mp e2)
  have hstrip_ne : pyStripL s1.data ≠ pyStripL s2.data :=
    fun e => hd (strip_inj e)
  have strel := caseOnlyDiff_replace (pyStripL s1.data) (pyStripL s2.data) st4
  have hrep_ne : pyReplaceSpaceUnderscoreL (pyStripL s1.data) ≠
      pyReplaceSpaceUnderscoreL (pyStripL s2.data) :=
    fun e => hstrip_ne (strel.2 e)
  have hq := quoteL_ne _ _ strel.1 hrep_ne
  intro he
  exact hq (congrArg String.data he)


theorem takeWhile_append_all {f : Char → Bool} (A B : List Char)
    (h : ∀ x ∈ A, f x = true) :
    (A ++ B).takeWhile f = A ++ B.takeWhile f := by
  induction A with
  | nil => rfl
  | cons a A' ih =>
    simp only [List.cons_append, List.takeWhile_cons,
      h a (List.mem_cons_self a A'), if_true]
    rw [ih (fun x hx => h x (List.mem_cons_of_mem a hx))]

theorem dropWhile_append_cons_neg {f : Char → Bool} (A B : List Char) (c : Char)
    (hc : f c = false) :
    (A ++ c :: B).dropWhile f = A.dropWhile f ++ c :: B := by
  induction A with
  | nil => simp [List.dropWhile_cons, hc]
  | cons a A' ih =>
    by_cases ha : f a = true <;>
      simp [List.dropWhile_cons, ha, ih]

theorem dropWhile_append_of_mem_neg {f : Char → Bool} (A B : List Char)
    (h : ∃ x ∈ A, f x = false) :
    (A ++ B).dropWhile f = A.dropWhile f ++ B := by
  induction A with
  | nil =>
    obtain ⟨x, hx, _⟩ := h
    cases hx
  | cons a A' ih =>
    by_cases ha : f a = true
    · have h' : ∃ x ∈ A', f x = false := by
        obtain ⟨x, hx, hfx⟩ := h
        rcases List.mem_cons.mp hx with e | hx'
        · subst e
          rw [ha] at hfx
          cases hfx
        · exact ⟨x, hx', hfx⟩
      simp [List.dropWhile_cons, ha, ih h']
    · simp [List.dropWhile_cons, ha]

theorem list_first_diff (l1 : List Char) :
    ∀ l2 : List Char, l1 ≠ l2 →
      (∃ p c1 t1 c2 t2, l1 = p ++ c1 :: t1 ∧ l2 = p ++ c2 :: t2 ∧ c1 ≠ c2) ∨
      (∃ c t, l2 = l1 ++ c :: t) ∨
      (∃ c t, l1 = l2 ++ c :: t) := by
  induction l1 with
  | nil =>
    intro l2 hne
    cases l2 with
    | nil => exact absurd rfl hne
    | cons c t => exact Or.inr (Or.inl ⟨c, t, rfl⟩)
  | cons x xs ih =>
    intro l2 hne
    cases l2 with
    | nil => exact Or.inr (Or.inr ⟨x, xs, rfl⟩)
    | cons y ys =>
      by_cases hxy : x = y
      · subst hxy
        have hne' : xs ≠ ys := by
          intro e
          exact hne (by rw [e])
        rcases ih ys hne' with ⟨p, c1, t1, c2, t2, e1, e2, hc⟩ | ⟨c, t, e⟩ | ⟨c, t, e⟩
        · exact Or.inl ⟨x :: p, c1, t1, c2, t2, by rw [e1]; rfl, by rw [e2]; rfl, hc⟩
        · exact Or.inr (Or.inl ⟨c, t, by rw [e]; rfl⟩)
        · exact Or.inr (Or.inr ⟨c, t, by rw [e]; rfl⟩)
      · exact Or.inl ⟨[], x, xs, y, ys, rfl, rfl, hxy⟩

theorem char_eq_of_toNat {c d : Char} (h : c.toNat = d.toNat) : c = d :=
  Char.eq_of_val_eq (UInt32.ext h)

theorem isPySpace_mem_cases {c : Char} (h : isPySpace c = true) :
    c ∈ ([' ', '\t', '\n', '\r', '\x0b', '\x0c'] : List Char) := by
  simp only [isPySpace, Bool.or_eq_true, decide_eq_true_eq] at h
  rcases h with ((((e | e) | e) | e) | e) | e <;> simp [e]

theorem not_space_ws_mem {c : Char} (h : isPySpace c = true) (hs : c ≠ ' ') :
    c ∈ (['\t', '\n', '\r', '\x0b', '\x0c'] : List Char) := by
  rcases List.mem_cons.mp (isPySpace_mem_cases h) with e | h5
  · exact absurd e hs
  · exact h5

theorem ws_quoteChar : ∀ c ∈ (['\t', '\n', '\r', '\x0b', '\x0c'] : List Char),
    quoteChar c = ['%', '0', hexDigitChar c.toNat] ∧
    c.toNat ∈ ([9, 10, 11, 12, 13] : List Nat) := by decide

theorem ws_quoteChar_inj : ∀ c1 ∈ (['\t', '\n', '\r', '\x0b', '\x0c'] : List Char),
    ∀ c2 ∈ (['\t', '\n', '\r', '\x0b', '\x0c'] : List Char),
    quoteChar c1 = quoteChar c2 → c1 = c2 := by decide

theorem underscore_quoteChar : quoteChar '_' = ['_'] := by decide

theorem safe_ne_percent {c : Char} (h : isSafeChar c = true) : c ≠ '%' := by
  intro e
  subst e
  exact absurd h (by decide)

theorem hex_byte_ne_ws : ∀ b ∈ List.range 256,
    b ∉ ([9, 10, 11, 12, 13] : List Nat) → ∀ t ∈ ([9, 10, 11, 12, 13] : List Nat),
    ¬(hexDigitChar (b / 16) = '0' ∧ hexDigitChar (b % 16) = hexDigitChar t) := by
  decide

theorem ws_code_char : ∀ n ∈ ([9, 10, 11, 12, 13] : List Nat),
    ∀ c : Char, c.toNat = n → isPySpace c = true := by
  intro n hn c he
  simp only [List.mem_cons, List.not_mem_nil, or_false] at hn
  have hmem : c = '\t' ∨ c = '\n' ∨ c = '\x0b' ∨ c = '\x0c' ∨ c = '\r' := by
    rcases hn with e | e | e | e | e
    · exact Or.inl (char_eq_of_toNat (by rw [he, e]; decide : c.toNat = ('\t').toNat))
    · exact Or.inr (Or.inl (char_eq_of_toNat (by rw [he, e]; decide : c.toNat = ('\n').toNat)))
    · exact Or.inr (Or.inr (Or.inl
        (char_eq_of_toNat (by rw [he, e]; decide : c.toNat = ('\x0b').toNat))))
    · exact Or.inr (Or.inr (Or.inr (Or.inl
        (char_eq_of_toNat (by rw [he, e]; decide : c.toNat = ('\x0c').toNat)))))
    · exact Or.inr (Or.inr (Or.inr (Or.inr
        (char_eq_of_toNat (by rw [he, e]; decide : c.toNat = ('\r').toNat)))))
  rcases hmem with e | e | e | e | e <;> subst e <;> decide

theorem utf8Bytes_head (c : Char) :
    ∃ b bs, utf8Bytes c = b :: bs ∧ b < 256 ∧
      (isPySpace c = false → b ∉ ([9, 10, 11, 12, 13] : List Nat)) := by
  have hv : c.toNat < 1114112 := by
    rcases c.valid with h | ⟨_, h2⟩
    · exact Nat.lt_trans h (by decide)
    · exact h2
  by_cases h1 : c.toNat < 0x80
  · refine ⟨c.toNat, [], by simp [utf8Bytes, h1], by omega, ?_⟩
    intro hws hmem
    rw [ws_code_char c.toNat hmem c rfl] at hws
    cases hws
  · by_cases h2 : c.toNat < 0x800
    · have hdiv : c.toNat / 0x40 < 0x20 := Nat.div_lt_of_lt_mul (by omega)
      refine ⟨0xC0 + c.toNat / 0x40, [0x80 + c.toNat % 0x40],
        by simp [utf8Bytes, h1, h2], by omega, ?_⟩
      intro _ hmem
      simp only [List.mem_cons, List.not_mem_nil, or_false] at hmem
      rcases hmem with e | e | e | e | e <;> omega
    · by_cases h3 : c.toNat < 0x10000
      · have hdiv : c.toNat / 0x1000 < 0x10 := Nat.div_lt_of_lt_mul (by omega)
        refine ⟨0xE0 + c.toNat / 0x1000,
          [0x80 + (c.toNat / 0x40) % 0x40, 0x80 + c.toNat % 0x40],
          by simp [utf8Bytes, h1, h2, h3], by omega, ?_⟩
        intro _ hmem
        simp only [List.mem_cons, List.not_mem_nil, or_false] at hmem
        rcases hmem with e | e | e | e | e <;> omega
      · have hdiv : c.toNat / 0x40000 < 0x10 := Nat.div_lt_of_lt_mul (by omega)
        refine ⟨0xF0 + c.toNat / 0x40000,
          [0x80 + (c.toNat / 0x1000) % 0x40, 0x80 + (c.toNat / 0x40) % 0x40,
           0x80 + c.toNat % 0x40],
          by simp [utf8Bytes, h1, h2, h3], by omega, ?_⟩
        intro _ hmem
        simp only [List.mem_cons, List.not_mem_nil, or_false] at hmem
        rcases hmem with e | e | e | e | e <;> omega

theorem quote_chunk_clash (c1 c2 : Char) (hws1 : isPySpace c1 = true)
    (hinfo : (isPySpace c2 = true ∧ c1 ≠ c2) ∨ (isPySpace c2 = false ∧ c2 ≠ '_'))
    (X Y : List Char)
    (heq : quoteChar (if c1 = ' ' then '_' else c1) ++ X =
           quoteChar (if c2 = ' ' then '_' else c2) ++ Y) : False := by
  rcases hinfo with ⟨hws2, hcc⟩ | ⟨hws2, hu⟩
  · by_cases e1 : c1 = ' ' <;> by_cases e2 : c2 = ' '
    · exact hcc (by rw [e1, e2])
    · rw [if_pos e1, if_neg e2, underscore_quoteChar,
        (ws_quoteChar c2 (not_space_ws_mem hws2 e2)).1] at heq
      simp only [List.cons_append, List.nil_append] at heq
      injection heq with h _
      exact absurd h (by decide)
    · rw [if_neg e1, if_pos e2, underscore_quoteChar,
        (ws_quoteChar c1 (not_space_ws_mem hws1 e1)).1] at heq
      simp only [List.cons_append, List.nil_append] at heq
      injection heq with h _
      exact absurd h (by decide)
    · have hq1 := (ws_quoteChar c1 (not_space_ws_mem hws1 e1)).1
      have hq2 := (ws_quoteChar c2 (not_space_ws_mem hws2 e2)).1
      rw [if_neg e1, if_neg e2, hq1, hq2] at heq
      have hch := (List.append_inj heq (by simp)).1
      exact hcc (ws_quoteChar_inj c1 (not_space_ws_mem hws1 e1) c2
        (not_space_ws_mem hws2 e2) (by rw [hq1, hq2]; exact hch))
  · have e2 : ¬ c2 = ' ' := by
      intro e
      rw [e] at hws2
      exact absurd hws2 (by decide)
    rw [if_neg e2] at heq
    by_cases hsafe : isSafeChar c2 = true
    · have hq2 : quoteChar c2 = [c2] := by simp [quoteChar, hsafe]
      rw [hq2] at heq
      by_cases e1 : c1 = ' '
      · rw [if_pos e1, underscore_quoteChar] at heq
        simp only [List.cons_append, List.nil_append] at heq
        injection heq with h _
        exact hu h.symm
      · rw [if_neg e1, (ws_quoteChar c1 (not_space_ws_mem hws1 e1)).1] at heq
        simp only [List.cons_append, List.nil_append] at heq
        injection heq with h _
        exact safe_ne_percent hsafe h.symm
    · obtain ⟨b, bs, hb, hblt, hbc⟩ := utf8Bytes_head c2
      have hbcodes := hbc hws2
      have hsafe' : isSafeChar c2 = false := by
        cases hx : isSafeChar c2
        · rfl
        · exact absurd hx hsafe
      have hq2 : quoteChar c2 =
          '%' :: hexDigitChar (b / 16) :: hexDigitChar (b % 16) ::
            bs.flatMap (fun v => ['%', hexDigitChar (v / 16), hexDigitChar (v % 16)]) := by
        simp [quoteChar, hsafe', hb, List.flatMap_cons]
      rw [hq2] at heq
      by_cases e1 : c1 = ' '
      · rw [if_pos e1, underscore_quoteChar] at heq
        simp only [List.cons_append, List.nil_append] at heq
        injection heq with h _
        exact absurd h (by decide)
      · have hq1 := (ws_quoteChar c1 (not_space_ws_mem hws1 e1)).1
        have ht1 := (ws_quoteChar c1 (not_space_ws_mem hws1 e1)).2
        rw [if_neg e1, hq1] at heq
        simp only [List.cons_append, List.nil_append] at heq
        injection heq with h1 heq
        injection heq with h2 heq
        injection heq with h3 _
        exact hex_byte_ne_ws b (List.mem_range.mpr hblt) hbcodes c1.toNat ht1
          ⟨h2.symm, h3.symm⟩

theorem ws_prefix_case (l : List Char) (c : Char) (t : List Char)
    (hfil : (l ++ c :: t).filter (fun x => !isPySpace x) =
            l.filter (fun x => !isPySpace x))
    (htrail : (l ++ c :: t).reverse.takeWhile isPySpace =
              l.reverse.takeWhile isPySpace) : False := by
  rw [List.filter_append] at hfil
  have hlen := congrArg List.length hfil
  rw [List.length_append] at hlen
  have hnil : (c :: t).filter (fun x => !isPySpace x) = [] :=
    List.eq_nil_of_length_eq_zero (by omega)
  have hwc : isPySpace c = true := by
    by_cases hx : isPySpace c = true
    · exact hx
    · exfalso
      rw [Bool.not_eq_true] at hx
      rw [List.filter_cons] at hnil
      simp [hx] at hnil
  have hwt : ∀ x ∈ t, isPySpace x = true := by
    intro x hx
    have := List.filter_eq_nil_iff.mp hnil x (List.mem_cons_of_mem c hx)
    simpa using this
  have hall : ∀ x ∈ (c :: t).reverse, isPySpace x = true := by
    intro x hx
    rcases List.mem_cons.mp (List.mem_reverse.mp hx) with e | hx'
    · rw [e]; exact hwc
    · exact hwt x hx'
  rw [List.reverse_append, takeWhile_append_all _ _ hall] at htrail
  have hlt := congrArg List.length htrail
  rw [List.length_append, List.length_reverse, List.length_cons] at hlt
  omega

theorem wsDiff_core (p : List Char) (c1 : Char) (t1 : List Char) (c2 : Char)
    (t2 : List Char) (hcc : c1 ≠ c2) (hws1 : isPySpace c1 = true)
    (hfil : (p ++ c1 :: t1).filter (fun c => !isPySpace c) =
            (p ++ c2 :: t2).filter (fun c => !isPySpace c))
    (hlead : (p ++ c1 :: t1).takeWhile isPySpace =
             (p ++ c2 :: t2).takeWhile isPySpace)
    (htrail : (p ++ c1 :: t1).reverse.takeWhile isPySpace =
              (p ++ c2 :: t2).reverse.takeWhile isPySpace)
    (hu2 : '_' ∉ (p ++ c2 :: t2)) :
    quoteL (pyReplaceSpaceUnderscoreL (pyStripL (p ++ c1 :: t1))) ≠
      quoteL (pyReplaceSpaceUnderscoreL (pyStripL (p ++ c2 :: t2))) := by
  have hp : ∃ x ∈ p, isPySpace x = false := by
    by_cases hap : ∀ x ∈ p, isPySpace x = true
    · exfalso
      rw [takeWhile_append_all p (c1 :: t1) hap,
          takeWhile_append_all p (c2 :: t2) hap] at hlead
      have h2 := List.append_cancel_left hlead
      rw [List.takeWhile_cons, List.takeWhile_cons, hws1] at h2
      by_cases hws2 : isPySpace c2 = true
      · rw [hws2] at h2
        simp only [if_true] at h2
        injection h2 with h _
        exact hcc h
      · rw [Bool.not_eq_true] at hws2
        rw [hws2] at h2
        simp at h2
    · push_neg at hap
      obtain ⟨x, hx, hfx⟩ := hap
      exact ⟨x, hx, by simpa using hfx⟩
  have hfil' : (c1 :: t1).filter (fun c => !isPySpace c) =
      (c2 :: t2).filter (fun c => !isPySpace c) := by
    rw [List.filter_append, List.filter_append] at hfil
    exact List.append_cancel_left hfil
  have hft1 : t1.filter (fun c => !isPySpace c) =
      (c2 :: t2).filter (fun c => !isPySpace c) := by
    rw [List.filter_cons] at hfil'
    simpa [hws1] using hfil'
  have ht1 : ∃ x ∈ t1, isPySpace x = false := by
    by_cases hws2 : isPySpace c2 = true
    · have hft : t1.filter (fun c => !isPySpace c) =
          t2.filter (fun c => !isPySpace c) := by
        rw [List.filter_cons] at hft1
        simpa [hws2] using hft1
      by_cases hat1 : ∀ x ∈ t1, isPySpace x = true
      · exfalso
        have hf1 : t1.filter (fun c => !isPySpace c) = [] := by
          rw [List.filter_eq_nil_iff]
          intro a ha
          simp [hat1 a ha]
        have hf2 : t2.filter (fun c => !isPySpace c) = [] := by
          rw [← hft]
          exact hf1
        have hat2 : ∀ x ∈ t2, isPySpace x = true := by
          intro x hx
          have := List.filter_eq_nil_iff.mp hf2 x hx
          simpa using this
        have hr1 : (p ++ c1 :: t1).reverse = t1.reverse ++ c1 :: p.reverse := by
          simp [List.reverse_append]
        have hr2 : (p ++ c2 :: t2).reverse = t2.reverse ++ c2 :: p.reverse := by
          simp [List.reverse_append]
        rw [hr1, hr2,
          takeWhile_append_all _ _ (fun x hx => hat1 x (List.mem_reverse.mp hx)),
          takeWhile_append_all _ _ (fun x hx => hat2 x (List.mem_reverse.mp hx)),
          List.takeWhile_cons, List.takeWhile_cons, hws1, hws2] at htrail
        simp only [if_true] at htrail
        have hlen : t1.reverse.length = t2.reverse.length := by
          have := congrArg List.length htrail
          simp only [List.length_append, List.length_cons] at this
          omega
        have h2 := (List.append_inj htrail hlen).2
        injection h2 with h _
        exact hcc h
      · push_neg at hat1
        obtain ⟨x, hx, hfx⟩ := hat1
        exact ⟨x, hx, by simpa using hfx⟩
    · rw [Bool.not_eq_true] at hws2
      have hmem : c2 ∈ t1.filter (fun c => !isPySpace c) := by
        rw [hft1, List.filter_cons]
        simp [hws2]
      have hm := List.mem_filter.mp hmem
      exact ⟨c2, hm.1, by simpa using hm.2⟩
  have ht2 : isPySpace c2 = true → ∃ x ∈ t2, isPySpace x = false := by
    intro hws2
    by_cases hat2 : ∀ x ∈ t2, isPySpace x = true
    · exfalso
      have hft : t1.filter (fun c => !isPySpace c) =
          t2.filter (fun c => !isPySpace c) := by
        rw [List.filter_cons] at hft1
        simpa [hws2] using hft1
      have hf2 : t2.filter (fun c => !isPySpace c) = [] := by
        rw [List.filter_eq_nil_iff]
        intro a ha
        simp [hat2 a ha]
      have hf1 : t1.filter (fun c => !isPySpace c) = [] := by
        rw [hft, hf2]
      obtain ⟨x, hx, hfx⟩ := ht1
      have := List.filter_eq_nil_iff.mp hf1 x hx
      simp [hfx] at this
    · push_neg at hat2
      obtain ⟨x, hx, hfx⟩ := hat2
      exact ⟨x, hx, by simpa using hfx⟩
  have hd1 : (p ++ c1 :: t1).dropWhile isPySpace =
      p.dropWhile isPySpace ++ c1 :: t1 :=
    dropWhile_append_of_mem_neg p (c1 :: t1) hp
  have hd2 : (p ++ c2 :: t2).dropWhile isPySpace =
      p.dropWhile isPySpace ++ c2 :: t2 :=
    dropWhile_append_of_mem_neg p (c2 :: t2) hp
  have hs1 : pyStripL (p ++ c1 :: t1) =
      p.dropWhile isPySpace ++ c1 :: (t1.reverse.dropWhile isPySpace).reverse := by
    unfold pyStripL
    rw [hd1]
    have hrev : (p.dropWhile isPySpace ++ c1 :: t1).reverse =
        t1.reverse ++ c1 :: (p.dropWhile isPySpace).reverse := by
      simp [List.reverse_append]
    rw [hrev, dropWhile_append_of_mem_neg t1.reverse _ (by
      obtain ⟨x, hx, hfx⟩ := ht1
      exact ⟨x, List.mem_reverse.mpr hx, hfx⟩)]
    simp [List.reverse_append]
  have hs2 : pyStripL (p ++ c2 :: t2) =
      p.dropWhile isPySpace ++ c2 :: (t2.reverse.dropWhile isPySpace).reverse := by
    unfold pyStripL
    rw [hd2]
    have hrev : (p.dropWhile isPySpace ++ c2 :: t2).reverse =
        t2.reverse ++ c2 :: (p.dropWhile isPySpace).reverse := by
      simp [List.reverse_append]
    rw [hrev]
    by_cases hws2 : isPySpace c2 = true
    · rw [dropWhile_append_of_mem_neg t2.reverse _ (by
        obtain ⟨x, hx, hfx⟩ := ht2 hws2
        exact ⟨x, List.mem_reverse.mpr hx, hfx⟩)]
      simp [List.reverse_append]
    · rw [Bool.not_eq_true] at hws2
      rw [dropWhile_append_cons_neg t2.reverse _ c2 hws2]
      simp [List.reverse_append]
  have hinfo : (isPySpace c2 = true ∧ c1 ≠ c2) ∨
      (isPySpace c2 = false ∧ c2 ≠ '_') := by
    by_cases hws2 : isPySpace c2 = true
    · exact Or.inl ⟨hws2, hcc⟩
    · rw [Bool.not_eq_true] at hws2
      refine Or.inr ⟨hws2, ?_⟩
      intro e
      subst e
      exact hu2 (List.mem_append_right _ (List.mem_cons_self _ _))
  intro heq
  rw [hs1, hs2] at heq
  unfold pyReplaceSpaceUnderscoreL at heq
  rw [List.map_append, List.map_append, List.map_cons, List.map_cons] at heq
  unfold quoteL at heq
  rw [List.flatMap_append, List.flatMap_append, List.flatMap_cons,
    List.flatMap_cons] at heq
  have hclash := List.append_cancel_left heq
  exact quote_chunk_clash c1 c2 hws1 hinfo _ _ hclash

/-- Two label strings that differ only by internal whitespace: same
non-whitespace characters in the same order, the same leading whitespace
run and the same trailing whitespace run (so every difference lies in
internal whitespace), and — as forced by the counterexample
`C8_counterexample`, where a literal underscore collides with a replaced
space — no underscore characters in either label. -/
def wsOnlyDiff (s1 s2 : String) : Prop :=
  s1.data.filter (fun c => !isPySpace c) = s2.data.filter (fun c => !isPySpace c) ∧
  s1.data.takeWhile isPySpace = s2.data.takeWhile isPySpace ∧
  s1.data.reverse.takeWhile isPySpace = s2.data.reverse.takeWhile isPySpace ∧
  '_' ∉ s1.data ∧ '_' ∉ s2.data

theorem normalize_label_ne_of_wsOnlyDiff (s1 s2 : String) (hne : s1 ≠ s2)
    (h : wsOnlyDiff s1 s2) : normalize_label s1 ≠ normalize_label s2 := by
  obtain ⟨hfil, hlead, htrail, hu1, hu2⟩ := h
  have hdne : s1.data ≠ s2.data := fun e => hne (String.ext e)
  intro heq
  have hq : quoteL (pyReplaceSpaceUnderscoreL (pyStripL s1.data)) =
      quoteL (pyReplaceSpaceUnderscoreL (pyStripL s2.data)) :=
    congrArg String.data heq
  rcases list_first_diff s1.data s2.data hdne with
    ⟨p, c1, t1, c2, t2, e1, e2, hcc⟩ | ⟨c, t, e⟩ | ⟨c, t, e⟩
  · rw [e1, e2] at hfil hlead htrail hq
    rw [e2] at hu2
    rw [e1] at hu1
    by_cases hws1 : isPySpace c1 = true
    · exact wsDiff_core p c1 t1 c2 t2 hcc hws1 hfil hlead htrail hu2 hq
    · by_cases hws2 : isPySpace c2 = true
      · exact wsDiff_core p c2 t2 c1 t1 (Ne.symm hcc) hws2 hfil.symm hlead.symm
          htrail.symm hu1 hq.symm
      · rw [Bool.not_eq_true] at hws1 hws2
        rw [List.filter_append, List.filter_append] at hfil
        have h2 := List.append_cancel_left hfil
        rw [List.filter_cons, List.filter_cons] at h2
        simp only [hws1, hws2, Bool.not_false, if_true] at h2
        injection h2 with h _
        exact hcc h
  · rw [e] at hfil htrail
    exact ws_prefix_case s1.data c t hfil.symm htrail.symm
  · rw [e] at hfil htrail
    exact ws_prefix_case s2.data c t hfil htrail

theorem create_uri_ref_ne_of_normalize_ne (base : String) (s1 s2 : String)
    (hne : s1 ≠ s2) (hn : normalize_label s1 ≠ normalize_label s2) :
    create_uri_ref (fun s => Node.uri (base ++ s)) s1 ≠
      create_uri_ref (fun s => Node.uri (base ++ s)) s2 := by
  by_cases h1 : s1 = "" <;> by_cases h2 : s2 = ""
  · exact absurd (h1.trans h2.symm) hne
  · simp [create_uri_ref, h1, h2]
  · simp [create_uri_ref, h1, h2]
  · simp only [create_uri_ref, if_neg h1, if_neg h2]
    intro he
    injection he with he2
    injection he2 with he3
    have hda := congrArg String.data he3
    rw [String.data_append, String.data_append] at hda
    exact hn (String.ext (List.append_cancel_left hda))

/-- Claim C8, counterexample: the labels "a _  b" and "a  _ b" are
distinct, have the same non-whitespace characters in the same order, the
same (empty) leading and trailing whitespace — so they differ only by
internal whitespace, with a double space involved — yet they normalize to
the same identifier a____b and produce the same Category and Cuisine
entities, because the literal underscore in each label collides with a
replaced space. -/
theorem C8_counterexample :
    ("a _  b" : String) ≠ "a  _ b" ∧
    ("a _  b" : String).data.filter (fun c => !isPySpace c) =
      ("a  _ b" : String).data.filter (fun c => !isPySpace c) ∧
    ("a _  b" : String).data.takeWhile isPySpace =
      ("a  _ b" : String).data.takeWhile isPySpace ∧
    ("a _  b" : String).data.reverse.takeWhile isPySpace =
      ("a  _ b" : String).data.reverse.takeWhile isPySpace ∧
    normalize_label "a _  b" = normalize_label "a  _ b" ∧
    create_uri_ref CATEGORY "a _  b" = create_uri_ref CATEGORY "a  _ b" ∧
    create_uri_ref CUISINE "a _  b" = create_uri_ref CUISINE "a  _ b" :=
  ⟨by decide, by decide, by decide, by decide, by decide, rfl, rfl⟩

/-- Claim C8 (amended): URI normalization does not merge case or
multi-whitespace variants — for any two distinct label strings that
differ only by letter case, or only by internal whitespace beyond single
spaces provided the labels contain no underscore characters (a literal
underscore collides with a replaced space, see `C8_counterexample`), the
normalized identifiers differ and the resulting Category and Cuisine
entities are distinct. -/
theorem C8_no_case_or_whitespace_merging (s1 s2 : String) (hne : s1 ≠ s2)
    (h : caseOnlyDiff s1.data s2.data = true ∨ wsOnlyDiff s1 s2) :
    normalize_label s1 ≠ normalize_label s2 ∧
    create_uri_ref CATEGORY s1 ≠ create_uri_ref CATEGORY s2 ∧
    create_uri_ref CUISINE s1 ≠ create_uri_ref CUISINE s2 := by
  have hnl : normalize_label s1 ≠ normalize_label s2 := by
    rcases h with hcase | hws
    · exact normalize_label_ne_of_caseOnlyDiff s1 s2 hne hcase
    · exact normalize_label_ne_of_wsOnlyDiff s1 s2 hne hws
  exact ⟨hnl,
    create_uri_ref_ne_of_normalize_ne CATEGORY_base s1 s2 hne hnl,
    create_uri_ref_ne_of_normalize_ne CUISINE_base s1 s2 hne hnl⟩

/-- Witness for C8 at the double-space pair "a  b" and "a b", taking the
whitespace branch. -/
theorem C8_witness :
    normalize_label "a  b" ≠ normalize_label "a b" ∧
    create_uri_ref CATEGORY "a  b" ≠ create_uri_ref CATEGORY "a b" ∧
    create_uri_ref CUISINE "a  b" ≠ create_uri_ref CUISINE "a b" :=
  C8_no_case_or_whitespace_merging "a  b" "a b" (by decide)
    (Or.inr ⟨by decide, by decide, by decide, by decide, by decide⟩)
